import Mathlib

/-!
# Verification of the inat-tools observation pipeline

Shallow embedding of the pipeline logic in `api-query.py` and the lookup
functions in `labels.py`: identifier resolution, paginated fetching,
observation enrichment (accurate-location flag, phenology status, elevation
conversion), partitioning into buckets, the two-pass stable sort used for
reporting, and the place-info lookup fallback with its one-time backfill loop.

Python strings are modelled as Lean `String`s; Python string methods
(`lower`, `startswith`, the `in` substring test) are modelled as functions on
the underlying character lists.  Python's stable `list.sort(key=...)` is
modelled by `List.insertionSort` with the reflexive key comparison
`key a ≤ key b`, which is stable in the same sense.  Python `int()` applied
to a float truncates toward zero; it is modelled exactly on `ℚ`.
Exceptions are modelled with `Except`.
-/

namespace Inat

/-! ## Python string primitives -/

/-- Python `str.lower()` (per-character lowercasing). -/
def pyLower (s : String) : String :=
  ⟨s.data.map Char.toLower⟩

/-- Membership of a list as a contiguous segment, as a boolean.
Python's `needle in hay` substring test on the character lists. -/
def isSegmentOf : List Char → List Char → Bool
  | needle, [] => needle.isEmpty
  | needle, c :: rest => needle.isPrefixOf (c :: rest) || isSegmentOf needle rest

/-- Python `needle in hay` for strings (case-sensitive substring test). -/
def pyIn (needle hay : String) : Bool :=
  isSegmentOf needle.data hay.data

/-- Python `s.startswith(p)`. -/
def pyStartswith (s p : String) : Bool :=
  p.data.isPrefixOf s.data

/-- A Python exception kind (only the kinds the embedded code can raise). -/
inductive PyExc where
  | indexError
  | keyError
  | typeError
  | valueError
deriving DecidableEq

/-! ## `labels.py`: value labels and `get_value_label` -/

/-- The `value_labels` dict of `labels.py` (annotation value id → label). -/
def value_labels : List (Nat × String) :=
  [(2, "Adult"), (3, "Teneral"), (4, "Pupa"), (5, "Nymph"), (6, "Larva"), (7, "Egg"),
   (8, "Juvenile"), (16, "Subimago"),
   (10, "Female"), (11, "Male"),
   (13, "Flowering"), (14, "Fruits or Seeds"), (15, "Flower Buds"), (21, "No Flowers or Fruits"),
   (18, "Alive"), (19, "Dead"), (20, "Cannot Be Determined"),
   (23, "Feather"), (24, "Organism"), (25, "Scat"), (26, "Track"), (27, "Bone"), (28, "Molt"),
   (29, "Gall"), (30, "Egg"), (31, "Hair"), (32, "Leafmine"), (35, "Construction"),
   (37, "Breaking Leaf Buds"), (38, "Green Leaves"), (39, "Colored Leaves"), (40, "No Live Leaves")]

/-- `get_value_label` of `labels.py`: `value_labels.get(value_id)`. -/
def get_value_label (value_id : Nat) : Option String :=
  value_labels.lookup value_id

/-! ## `get_location_data`: accurate-location flag and phenology status -/

/-- Line 287 of `api-query.py`:
`accurate_location = True if observation['geoprivacy'] != 'obscured' and
(observation['positional_accuracy'] is None or
observation['positional_accuracy'] < 1000) else False`. -/
def accurate_location (geoprivacy : Option String) (positional_accuracy : Option Int) : Bool :=
  (geoprivacy != some "obscured")
    && (match positional_accuracy with
        | none => true
        | some v => decide (v < 1000))

/-- One entry of an observation's `annotations` list. -/
structure AnnotEntry where
  controlled_attribute_id : Nat
  controlled_value_id : Nat
deriving DecidableEq

/-- Lines 292-298 of `api-query.py`: `status = ""`, then for each annotation
with `controlled_attribute_id == 12`, `status = get_value_label(controlled_value_id)`.
The Python variable holds either a string or `None`, modelled as `Option String`
with initial value `some ""`. -/
def statusOf (annots : List AnnotEntry) : Option String :=
  annots.foldl
    (fun st a =>
      if a.controlled_attribute_id == 12 then get_value_label a.controlled_value_id else st)
    (some "")

/-! ## `main`: partition into buckets and the two-pass report sort -/

/-- The `observed_on_details` sub-dict: month and day of the observed date.
In the API payload the whole dict is either present or `null`. -/
structure DateDetails where
  month : Nat
  day : Nat
deriving DecidableEq

/-- The fields of the `location_data` dict built by `get_location_data` that
the classification and reporting steps read. -/
structure LocationData where
  id : Nat
  quality_grade : String
  accurate_location : Bool
  status : Option String
  elevation : String
  observed_on_details : Option DateDetails
deriving DecidableEq

/-- Lines 538-541 of `api-query.py`: append to `obs_rg_accurate` when
`quality_grade == 'research' and accurate_location`, else to `obs_other`. -/
def partitionObs : List LocationData → List LocationData × List LocationData
  | [] => ([], [])
  | o :: rest =>
    let p := partitionObs rest
    if o.quality_grade == "research" && o.accurate_location then
      (o :: p.1, p.2)
    else
      (p.1, o :: p.2)

/-- Sort key of line 543/545: `x['observed_on_details']['day'] if
x['observed_on_details'] else 99`. -/
def dayKey (x : LocationData) : Nat :=
  match x.observed_on_details with
  | some d => d.day
  | none => 99

/-- Sort key of line 544/546: `x['observed_on_details']['month'] if
x['observed_on_details'] else 99`. -/
def monthKey (x : LocationData) : Nat :=
  match x.observed_on_details with
  | some d => d.month
  | none => 99

/-- Lines 543-546 of `api-query.py`: a stable sort by day followed by a
stable sort by month (Python's `list.sort` is stable; `insertionSort` with
the key comparison `≤` is the stable sort of the Mathlib library). -/
def sortBucket (l : List LocationData) : List LocationData :=
  List.insertionSort (fun a b => monthKey a ≤ monthKey b)
    (List.insertionSort (fun a b => dayKey a ≤ dayKey b) l)

/-- The lexicographic (month, day) order on records, unknown dates keyed 99. -/
def lexMD (a b : LocationData) : Prop :=
  monthKey a < monthKey b ∨ (monthKey a = monthKey b ∧ dayKey a ≤ dayKey b)

/-- The four records of the sort test case: months [None, 3, 1, 3],
days [5, 20, 1, 2] (an unknown month means the whole `observed_on_details`
dict is absent, so both sort keys fall back to the sentinel 99). -/
def exRec1 : LocationData :=
  ⟨1, "research", true, some "", "0", none⟩

def exRec2 : LocationData :=
  ⟨2, "research", true, some "", "0", some ⟨3, 20⟩⟩

def exRec3 : LocationData :=
  ⟨3, "research", true, some "", "0", some ⟨1, 1⟩⟩

def exRec4 : LocationData :=
  ⟨4, "research", true, some "", "0", some ⟨3, 2⟩⟩

/-! ## `fetch_observations`: the paginated fetcher -/

/-- One page response of the observation search endpoint: a non-success
status, or a body with `total_results` and `results`. -/
inductive PageResponse (α : Type) where
  | err (status : Nat)
  | ok (total_results : Nat) (results : List α)

/-- The `while True` loop of `fetch_observations` (lines 110-157 of
`api-query.py`).  `server` maps a page number to its response; `total` is the
recorded `total_results` (`none` until the first successful response); the
loop appends each page's results to `acc` and stops on a non-success status,
an empty page, or once `acc` reaches the recorded total.  `reqs` counts page
requests issued; `fuel` bounds the recursion (the theorems supply enough fuel
for the loop to reach one of its `break` conditions). -/
def fetchGo {α : Type} (server : Nat → PageResponse α) :
    Nat → Nat → Option Nat → List α → Nat → List α × Nat
  | 0, _, _, acc, reqs => (acc, reqs)
  | fuel + 1, page, total, acc, reqs =>
    match server page with
    | .err _ => (acc, reqs + 1)
    | .ok total_results results =>
      let total' := total.getD total_results
      if results.isEmpty then (acc, reqs + 1)
      else
        let acc' := acc ++ results
        if total' ≤ acc'.length then (acc', reqs + 1)
        else fetchGo server fuel (page + 1) (some total') acc' (reqs + 1)

/-- `fetch_observations`: start at page 1 with no recorded total and an empty
accumulator; returns the accumulated observations and the number of page
requests issued. -/
def fetch_observations {α : Type} (server : Nat → PageResponse α) (fuel : Nat) :
    List α × Nat :=
  fetchGo server fuel 1 none [] 0

/-- An upstream that faithfully serves `N` distinct records (numbered
`0..N-1`, duplicate- and gap-free, in order) in pages of size `P`:
page `p` holds records `(p-1)*P` onward, and every page reports
`total_results = N`. -/
def idealServer (N P : Nat) : Nat → PageResponse Nat :=
  fun page => .ok N (((List.range N).drop ((page - 1) * P)).take P)

/-! ## `get_place_id`: place-name resolution -/

/-- A place candidate in the autocomplete result list (a non-empty dict in
the API payload, hence truthy in Python). -/
structure PlaceCand where
  display_name : String
  id : Nat
deriving DecidableEq

/-- The `for` loop of `get_place_id` (lines 43-49 of `api-query.py`): for
each candidate in order, first an exact case-insensitive display-name
comparison, then a case-insensitive substring test; either returns the
candidate's id. -/
def placeLoop (place_name : String) : List PlaceCand → Option Nat
  | [] => none
  | place :: rest =>
    if pyLower place.display_name == pyLower place_name then some place.id
    else if pyIn (pyLower place_name) (pyLower place.display_name) then some place.id
    else placeLoop place_name rest

/-- `get_place_id` (lines 30-52 of `api-query.py`) as a function of the
response status and decoded result list.  After the loop, line 50 evaluates
`data['results'][0]`, which raises `IndexError` on an empty result list; a
candidate dict is non-empty, hence truthy, so with a non-empty list the
function returns the first candidate's id. -/
def get_place_id (status : Nat) (place_name : String) (results : List PlaceCand) :
    Except PyExc (Option Nat) :=
  if status == 200 then
    match placeLoop place_name results with
    | some i => .ok (some i)
    | none =>
      match results with
      | [] => .error .indexError
      | place :: _ => .ok (some place.id)
  else .ok none

/-! ## `elevation_get_request_macrostrat`: elevation lookup -/

/-- A minimal JSON value model for the elevation response body (numbers are
the integer elevation values the claims quantify over). -/
inductive JVal where
  | jnull
  | jnum (n : Int)
  | jstr (s : String)
  | jobj (fields : List (String × JVal))

/-- Python `value[key]` subscription: `KeyError` for a missing key on a
dict, `TypeError` when subscripting a non-dict value with a string key. -/
def jGet : JVal → String → Except PyExc JVal
  | .jobj fields, key =>
    match fields.lookup key with
    | some v => .ok v
    | none => .error .keyError
  | _, _ => .error .typeError

/-- Python `int(x)` on a JSON value: an int stays; a string parses as a
decimal integer or raises `ValueError`; `None` and containers raise
`TypeError`. -/
def pyIntOf : JVal → Except PyExc Int
  | .jnum n => .ok n
  | .jstr s =>
    match s.toInt? with
    | some n => .ok n
    | none => .error .valueError
  | .jnull => .error .typeError
  | .jobj _ => .error .typeError

/-- Python `int()` applied to a real number: truncation toward zero,
modelled exactly on `ℚ`. -/
def pyTrunc (q : ℚ) : Int :=
  if 0 ≤ q then ⌊q⌋ else ⌈q⌉

/-- The meters-to-feet factor `3.28084` of line 418, as an exact rational. -/
def feetPerMeter : ℚ := 328084 / 100000

/-- The `try` body of `elevation_get_request_macrostrat` (line 418 of
`api-query.py`): `str(int(int(data['success']['data']['elevation']) * 3.28084))`. -/
def msBody (data : JVal) : Except PyExc String := do
  let j1 ← jGet data "success"
  let j2 ← jGet j1 "data"
  let j3 ← jGet j2 "elevation"
  let m ← pyIntOf j3
  pure (toString (pyTrunc ((m : ℚ) * feetPerMeter)))

/-- `elevation_get_request_macrostrat` (lines 391-425 of `api-query.py`) as
a function of the response: status code, whether the body is non-empty, and
the decoded JSON (`none` when `response.json()` raises `ValueError`).  The
`except ValueError` clause absorbs only `ValueError`; any other exception
escapes.  Non-success or empty responses yield the sentinel `"Error"`. -/
def elevation_get_request_ms (status : Nat) (hasContent : Bool) (body : Option JVal) :
    Except PyExc String :=
  if status == 200 && hasContent then
    match body with
    | none => .ok "Error"
    | some data =>
      match msBody data with
      | .ok s => .ok s
      | .error .valueError => .ok "Error"
      | .error e => .error e
  else .ok "Error"

/-- The macrostrat response body carrying an integer elevation `m` at
`success.data.elevation`. -/
def msPayload (m : Int) : JVal :=
  .jobj [("success", .jobj [("data", .jobj [("elevation", .jnum m)])])]

/-! ## `get_place_info` and the one-time backfill pass -/

/-- An entry of the `places_info` table of `labels.py`. -/
structure PlaceInfo where
  name : String
  bbox_area : ℚ
  place_type : Option Nat
deriving DecidableEq

/-- `get_place_info` of `labels.py` (lines 456-471), parametrised by the
static `places_info` table (in the source a literal dict of a few hundred
entries, each a non-empty dict and hence truthy). -/
def get_place_info (places_info : Nat → Option PlaceInfo) (place_id : Nat) : PlaceInfo :=
  match places_info place_id with
  | some info => info
  | none => ⟨"Not found (" ++ toString place_id ++ ")", 0, none⟩

/-- Lines 576-579 of `api-query.py`: iterate the collected place ids; for an
id whose `get_place_info` name starts with `"Not found"` and that is not yet
in the `places_missing_info` set, issue a backfill fetch and add the id to
the set.  Returns the list of ids for which a backfill fetch was issued. -/
def backfillFetches (places_info : Nat → Option PlaceInfo) :
    List Nat → List Nat → List Nat
  | [], _ => []
  | pid :: rest, missing =>
    if pyStartswith (get_place_info places_info pid).name "Not found"
        && !(missing.contains pid) then
      pid :: backfillFetches places_info rest (pid :: missing)
    else
      backfillFetches places_info rest missing

end Inat

namespace Inat

/-! ## Stability of key-based insertion sort -/

/-- Inserting `x` into a list `s` that is pairwise ordered by the
lexicographic combination of the key `k` and a tie relation `Q` keeps that
order, provided `x` is `Q`-below every element of `s` (stability: on equal
keys the inserted element keeps its original relative position). -/
theorem pairwise_orderedInsert_key {α : Type} (k : α → Nat) (Q : α → α → Prop)
    (x : α) (s : List α)
    (hs : s.Pairwise (fun a b => k a < k b ∨ (k a = k b ∧ Q a b)))
    (hx : ∀ y ∈ s, Q x y) :
    (List.orderedInsert (fun a b => k a ≤ k b) x s).Pairwise
      (fun a b => k a < k b ∨ (k a = k b ∧ Q a b)) := by
  induction s with
  | nil => simp
  | cons y ys ih =>
    rw [List.pairwise_cons] at hs
    by_cases hxy : k x ≤ k y
    · simp only [List.orderedInsert, if_pos hxy]
      rw [List.pairwise_cons]
      refine ⟨?_, List.pairwise_cons.mpr hs⟩
      intro z hz
      have hyz : k x ≤ k z := by
        rcases List.mem_cons.mp hz with rfl | hz'
        · exact hxy
        · rcases hs.1 z hz' with h1 | ⟨h1, _⟩
          · omega
          · omega
      rcases Nat.lt_or_ge (k x) (k z) with hlt | hge
      · exact Or.inl hlt
      · exact Or.inr ⟨by omega, hx z hz⟩
    · simp only [List.orderedInsert, if_neg hxy]
      rw [List.pairwise_cons]
      constructor
      · intro z hz
        rw [List.mem_orderedInsert] at hz
        rcases hz with rfl | hz'
        · exact Or.inl (by omega)
        · exact hs.1 z hz'
      · exact ih hs.2 (fun y' hy' => hx y' (List.mem_cons_of_mem y hy'))

/-- Stable insertion sort by a key `k` of a list pairwise ordered by `Q`
yields a list pairwise ordered by the lexicographic combination of `k`
and `Q` (the radix-sort property of a stable sort). -/
theorem pairwise_insertionSort_key {α : Type} (k : α → Nat) (Q : α → α → Prop)
    (l : List α) (h : l.Pairwise Q) :
    (List.insertionSort (fun a b => k a ≤ k b) l).Pairwise
      (fun a b => k a < k b ∨ (k a = k b ∧ Q a b)) := by
  induction l with
  | nil => simp
  | cons x l ih =>
    rw [List.pairwise_cons] at h
    rw [List.insertionSort]
    refine pairwise_orderedInsert_key k Q x _ (ih h.2) ?_
    intro y hy
    exact h.1 y ((List.perm_insertionSort _ l).mem_iff.mp hy)

/-! ## Theorems: C1, C10, C3, C4 -/

/-- **C1.** The `accurate_location` flag is true iff geoprivacy is not
`"obscured"` and the positional accuracy is unset or strictly below 1000;
in particular unset accuracy with non-obscured geoprivacy yields `true`. -/
theorem accurate_location_iff (g : Option String) (pa : Option Int) :
    accurate_location g pa = true ↔
      (g ≠ some "obscured" ∧ (pa = none ∨ ∃ v, pa = some v ∧ v < 1000)) := by
  cases pa with
  | none => simp [accurate_location]
  | some v => simp [accurate_location]

/-- Auxiliary: the status fold from an arbitrary starting value. -/
theorem statusFold_eq (st : Option String) (annots : List AnnotEntry) :
    annots.foldl
      (fun st a =>
        if a.controlled_attribute_id == 12 then get_value_label a.controlled_value_id else st)
      st =
      match (annots.filter (fun a => a.controlled_attribute_id == 12)).getLast? with
      | some a => get_value_label a.controlled_value_id
      | none => st := by
  induction annots using List.reverseRecOn generalizing st with
  | nil => rfl
  | append_singleton l x ih =>
    rw [List.foldl_append, List.filter_append]
    by_cases h : x.controlled_attribute_id = 12
    · simp [h, List.getLast?_concat]
    · have hx : (x.controlled_attribute_id == 12) = false := by
        simpa using h
      simp only [List.foldl_cons, List.foldl_nil, List.filter_cons, List.filter_nil, hx]
      simp only [Bool.false_eq_true, if_false, List.append_nil]
      exact ih st

/-- **C10.** The phenology status is the value label of the last annotation
whose controlled-attribute id is 12 (each successive match overwrites the
previous); with no such annotation the status is the empty string. -/
theorem statusOf_eq_last (annots : List AnnotEntry) :
    statusOf annots =
      match (annots.filter (fun a => a.controlled_attribute_id == 12)).getLast? with
      | some a => get_value_label a.controlled_value_id
      | none => some "" :=
  statusFold_eq (some "") annots

/-- **C3.** A record lands in the accurate-research-grade bucket iff its
quality grade is `"research"` and its accurate-location flag is true,
otherwise in the other bucket; the bucket sizes sum to the input length and
no record is in both buckets. -/
theorem partition_correct (l : List LocationData) :
    ((partitionObs l).1.length + (partitionObs l).2.length = l.length)
    ∧ (∀ r, r ∈ (partitionObs l).1 ↔
        r ∈ l ∧ (r.quality_grade = "research" ∧ r.accurate_location = true))
    ∧ (∀ r, r ∈ (partitionObs l).2 ↔
        r ∈ l ∧ ¬(r.quality_grade = "research" ∧ r.accurate_location = true))
    ∧ (∀ r, ¬(r ∈ (partitionObs l).1 ∧ r ∈ (partitionObs l).2)) := by
  induction l with
  | nil =>
    refine ⟨rfl, ?_, ?_, ?_⟩ <;> simp [partitionObs]
  | cons o rest ih =>
    obtain ⟨hlen, hfst, hsnd, _⟩ := ih
    by_cases h : o.quality_grade = "research" ∧ o.accurate_location = true
    · have hb : (o.quality_grade == "research" && o.accurate_location) = true := by
        simp [h.1, h.2]
      refine ⟨?_, ?_, ?_, ?_⟩
      · simp only [partitionObs, hb, if_true, List.length_cons]
        omega
      · intro r
        simp only [partitionObs, hb, if_true, List.mem_cons, hfst r]
        constructor
        · rintro (rfl | ⟨hr, hq⟩)
          · exact ⟨Or.inl rfl, h⟩
          · exact ⟨Or.inr hr, hq⟩
        · rintro ⟨rfl | hr, hq⟩
          · exact Or.inl rfl
          · exact Or.inr ⟨hr, hq⟩
      · intro r
        simp only [partitionObs, hb, if_true, List.mem_cons, hsnd r]
        constructor
        · rintro ⟨hr, hq⟩
          exact ⟨Or.inr hr, hq⟩
        · rintro ⟨rfl | hr, hq⟩
          · exact absurd h hq
          · exact ⟨hr, hq⟩
      · intro r
        rintro ⟨h1, h2⟩
        rw [partitionObs] at h1 h2
        simp only [hb, if_true, List.mem_cons] at h1 h2
        rcases h1 with rfl | h1
        · exact ((hsnd r).mp h2).2 h
        · exact ((hsnd r).mp h2).2 ((hfst r).mp h1).2
    · have hb : (o.quality_grade == "research" && o.accurate_location) = false := by
        cases hB : (o.quality_grade == "research" && o.accurate_location)
        · rfl
        · rw [Bool.and_eq_true, beq_iff_eq] at hB
          exact absurd hB h
      refine ⟨?_, ?_, ?_, ?_⟩
      · simp only [partitionObs, hb, Bool.false_eq_true, if_false, List.length_cons]
        omega
      · intro r
        simp only [partitionObs, hb, Bool.false_eq_true, if_false, List.mem_cons, hfst r]
        constructor
        · rintro ⟨hr, hq⟩
          exact ⟨Or.inr hr, hq⟩
        · rintro ⟨rfl | hr, hq⟩
          · exact absurd hq h
          · exact ⟨hr, hq⟩
      · intro r
        simp only [partitionObs, hb, Bool.false_eq_true, if_false, List.mem_cons, hsnd r]
        constructor
        · rintro (rfl | ⟨hr, hq⟩)
          · exact ⟨Or.inl rfl, h⟩
          · exact ⟨Or.inr hr, hq⟩
        · rintro ⟨rfl | hr, hq⟩
          · exact Or.inl rfl
          · exact Or.inr ⟨hr, hq⟩
      · intro r
        rintro ⟨h1, h2⟩
        rw [partitionObs] at h1 h2
        simp only [hb, Bool.false_eq_true, if_false, List.mem_cons] at h1 h2
        rcases h2 with rfl | h2
        · exact h ((hfst r).mp h1).2
        · exact ((hsnd r).mp h2).2 ((hfst r).mp h1).2

/-- **C4.** The two successive stable sorts (first by day, then by month,
missing date components keyed by the sentinel 99) permute the input into
lexicographic (month, day) order with unknowns last; in particular the
records with months [None, 3, 1, 3] and days [5, 20, 1, 2] sort to
[month=1/day=1, month=3/day=2, month=3/day=20, month=None/day=5]. -/
theorem sortBucket_lex_correct :
    (∀ l : List LocationData, (sortBucket l).Perm l ∧ (sortBucket l).Pairwise lexMD)
    ∧ sortBucket [exRec1, exRec2, exRec3, exRec4] = [exRec3, exRec4, exRec2, exRec1] := by
  constructor
  · intro l
    constructor
    · exact (List.perm_insertionSort _ _).trans (List.perm_insertionSort _ _)
    · have htriv : l.Pairwise (fun _ _ => True) := by
        induction l with
        | nil => exact List.Pairwise.nil
        | cons a t ih => exact List.Pairwise.cons (fun y _ => trivial) ih
      have h1 := pairwise_insertionSort_key dayKey (fun _ _ => True) l htriv
      have h2 : (List.insertionSort (fun a b => dayKey a ≤ dayKey b) l).Pairwise
          (fun a b => dayKey a ≤ dayKey b) := by
        refine h1.imp ?_
        intro a b hab
        rcases hab with hlt | ⟨heq, _⟩
        · omega
        · omega
      have h3 := pairwise_insertionSort_key monthKey (fun a b => dayKey a ≤ dayKey b) _ h2
      exact h3.imp (fun hab => hab)
  · rfl

/-- Auxiliary: the fetch loop against the faithful upstream, from the state
reached after `j` full pages. -/
theorem fetchGo_ideal (N P : Nat) (hP : 0 < P) :
    ∀ (fuel j : Nat), j * P < N → (N + P - 1) / P - j ≤ fuel →
    ∀ (total : Option Nat), total.getD N = N → ∀ (reqs : Nat),
    fetchGo (idealServer N P) fuel (j + 1) total (List.range (j * P)) reqs =
      (List.range N, reqs + ((N + P - 1) / P - j)) := by
  intro fuel
  induction fuel with
  | zero =>
    intro j hj hfuel total ht reqs
    exfalso
    have hc : j + 1 ≤ (N + P - 1) / P := by
      rw [Nat.le_div_iff_mul_le hP]
      have e1 : (j + 1) * P = j * P + P := by ring
      omega
    omega
  | succ fuel ih =>
    intro j hj hfuel total ht reqs
    have hdrop : ((List.range N).drop (j * P)).length = N - j * P :=
      by rw [List.length_drop, List.length_range]
    have hres : (((List.range N).drop (j * P)).take P).length = min P (N - j * P) := by
      rw [List.length_take, hdrop]
    have hne : (((List.range N).drop (j * P)).take P).isEmpty = false := by
      rw [List.isEmpty_eq_false]
      intro he
      rw [he] at hres
      simp only [List.length_nil] at hres
      omega
    have hacc : List.range (j * P) ++ ((List.range N).drop (j * P)).take P =
        (List.range N).take (j * P + P) := by
      rw [List.take_add, List.take_range]
      congr 1
      rw [Nat.min_eq_left (Nat.le_of_lt hj)]
    simp only [fetchGo, idealServer, Nat.add_sub_cancel, ht, hne, Bool.false_eq_true,
      if_false, hacc]
    rw [List.take_range, List.length_range]
    by_cases hstop : N ≤ (j * P + P) ⊓ N
    · rw [if_pos hstop]
      have hNle : N ≤ j * P + P := by
        rcases Nat.le_total (j * P + P) N with h1 | h1
        · omega
        · exact h1
      have hmin : (j * P + P) ⊓ N = N := by omega
      have hc1 : j + 1 ≤ (N + P - 1) / P := by
        rw [Nat.le_div_iff_mul_le hP]
        have e1 : (j + 1) * P = j * P + P := by ring
        omega
      have hc2 : (N + P - 1) / P < j + 2 := by
        rw [Nat.div_lt_iff_lt_mul hP]
        have e2 : (j + 2) * P = j * P + P + P := by ring
        omega
      rw [hmin]
      exact congrArg (fun n => (List.range N, n)) (by omega)
    · rw [if_neg hstop]
      have hlt : j * P + P < N := by omega
      have hmin : (j * P + P) ⊓ N = j * P + P := by omega
      have e1 : (j + 1) * P = j * P + P := by ring
      have step := ih (j + 1) (by omega) (by omega) (some N) rfl (reqs + 1)
      rw [e1] at step
      rw [hmin]
      rw [step]
      have hc1 : j + 1 ≤ (N + P - 1) / P := by
        rw [Nat.le_div_iff_mul_le hP]
        omega
      exact congrArg (fun n => (List.range N, n)) (by omega)

/-- **C2 (amended).** Against a faithful upstream serving `N` records in
pages of size `P`, the fetch starts at page 1, accumulates exactly the `N`
records in order, and issues exactly `max (ceil (N / P)) 1` page requests:
`ceil (N / P)` when `N ≥ 1`, and a single request when `N = 0` (that request
returns zero results and the loop stops). -/
theorem fetch_observations_ideal (N P fuel : Nat) (hP : 0 < P)
    (hfuel : max ((N + P - 1) / P) 1 ≤ fuel) :
    fetch_observations (idealServer N P) fuel =
      (List.range N, max ((N + P - 1) / P) 1) := by
  rcases Nat.eq_zero_or_pos N with rfl | hN
  · have h0 : (0 + P - 1) / P = 0 := by
      rw [Nat.div_eq_of_lt]
      omega
    rw [h0]
    cases fuel with
    | zero => omega
    | succ fuel =>
      simp only [fetch_observations, fetchGo, idealServer, List.range_zero,
        List.drop_nil, List.take_nil, List.isEmpty_nil, if_true]
      rfl
  · have hc1 : 1 ≤ (N + P - 1) / P := by
      rw [Nat.le_div_iff_mul_le hP]
      omega
    have hmax : max ((N + P - 1) / P) 1 = (N + P - 1) / P := by omega
    rw [hmax] at hfuel ⊢
    have h := fetchGo_ideal N P hP fuel 0 (by omega) (by omega) none rfl 0
    simp only [Nat.zero_mul, List.range_zero, Nat.zero_add, Nat.sub_zero] at h
    rw [fetch_observations, h]

/-- **C2 counterexample.** With a faithful upstream reporting total 0 (page
size 200), the fetch issues one page request, not `ceil (0 / 200) = 0` — and
one is not fewer than zero. -/
theorem fetch_zero_total_requests :
    (fetch_observations (idealServer 0 200) 1).2 = 1 ∧ (0 + 200 - 1) / 200 = 0 ∧ ¬(1 ≤ 0) := by
  refine ⟨rfl, by decide, by decide⟩

/-- **C2 witness.** `N = 5`, `P = 2`: three page requests, records `0..4`. -/
theorem fetch_observations_ideal_witness :
    0 < 2 ∧ max ((5 + 2 - 1) / 2) 1 ≤ 3 ∧
      fetch_observations (idealServer 5 2) 3 = (List.range 5, max ((5 + 2 - 1) / 2) 1) :=
  ⟨by decide, by decide, fetch_observations_ideal 5 2 3 (by decide) (by decide)⟩

/-- Auxiliary: a list is a segment of itself. -/
theorem isSegmentOf_self (l : List Char) : isSegmentOf l l = true := by
  cases l with
  | nil => rfl
  | cons c rest =>
    rw [isSegmentOf]
    have h : (c :: rest).isPrefixOf (c :: rest) = true :=
      List.isPrefixOf_iff_prefix.mpr (List.prefix_refl _)
    rw [h, Bool.true_or]

/-- Auxiliary: the candidate loop of `get_place_id` returns the id of the
first candidate whose lowercased display name contains the lowercased query
(an exact match is a special case of the substring test). -/
theorem placeLoop_eq_find (q : String) (l : List PlaceCand) :
    placeLoop q l =
      (l.find? fun p => pyIn (pyLower q) (pyLower p.display_name)).map (fun p => p.id) := by
  induction l with
  | nil => rfl
  | cons p rest ih =>
    rw [placeLoop]
    by_cases hin : pyIn (pyLower q) (pyLower p.display_name) = true
    · rw [@List.find?_cons_of_pos _ (fun r => pyIn (pyLower q) (pyLower r.display_name)) p rest hin]
      by_cases hex : (pyLower p.display_name == pyLower q) = true
      · rw [if_pos hex]
        rfl
      · rw [if_neg hex, if_pos hin]
        rfl
    · have hex : ¬(pyLower p.display_name == pyLower q) = true := by
        intro hc
        apply hin
        have heq : pyLower p.display_name = pyLower q := beq_iff_eq.mp hc
        rw [pyIn, heq]
        exact isSegmentOf_self _
      rw [@List.find?_cons_of_neg _ (fun r => pyIn (pyLower q) (pyLower r.display_name)) p rest hin,
        if_neg hex, if_neg hin]
      exact ih

/-- **C5 (amended).** On a successful response with a non-empty candidate
list, `get_place_id` makes a single pass and returns the id of the first
candidate whose display name contains the query as a case-insensitive
substring (an exact match being a special case of containment — the
per-candidate exact check never changes which candidate is chosen); if no
candidate contains the query, it returns the id of the first candidate. -/
theorem get_place_id_first_containing (q : String) (p : PlaceCand) (ps : List PlaceCand) :
    get_place_id 200 q (p :: ps) =
      .ok (some ((((p :: ps).find? fun r => pyIn (pyLower q) (pyLower r.display_name)).getD p).id)) := by
  rw [get_place_id, if_pos (show (200 == 200) = true from rfl), placeLoop_eq_find]
  cases hf : (p :: ps).find? fun r => pyIn (pyLower q) (pyLower r.display_name) with
  | none => rfl
  | some r => rfl

/-- **C5 counterexample.** For query `"siskiyou"` and candidates
`"a siskiyou a"` (id 1) and `"siskiyou"` (id 2), the second candidate is the
only exact case-insensitive match, yet `get_place_id` returns id 1: its
single pass prefers an earlier substring match over a later exact match. -/
theorem get_place_id_single_pass_cex :
    get_place_id 200 "siskiyou" [⟨"a siskiyou a", 1⟩, ⟨"siskiyou", 2⟩] = .ok (some 1)
    ∧ (pyLower "siskiyou" == pyLower "siskiyou") = true
    ∧ (pyLower "a siskiyou a" == pyLower "siskiyou") = false
    ∧ (1 : Nat) ≠ 2 :=
  ⟨rfl, rfl, rfl, by decide⟩

/-- **C6.** On a successful response with an empty result list,
`get_place_id` evaluates `data['results'][0]` (line 50) and raises
`IndexError` instead of returning `None`: the explicit guard the spec
requires is absent from the code. -/
theorem get_place_id_empty_raises :
    get_place_id 200 "Siskiyou County, CA" [] = .error .indexError := rfl

/-- **C7 counterexample.** For an elevation of 2 meters the code stores
`"6"` (truncation of `6.56168`), while `round(2 * 3.28084) = 7`. -/
theorem ms_elevation_round_cex :
    elevation_get_request_ms 200 true (some (msPayload 2)) = .ok "6"
    ∧ round (((2 : Int) : ℚ) * feetPerMeter) = 7
    ∧ (7 : Int) ≠ 6 := by
  refine ⟨?_, ?_, by decide⟩
  · have h1 : elevation_get_request_ms 200 true (some (msPayload 2)) =
        .ok (toString (pyTrunc (((2 : Int) : ℚ) * feetPerMeter))) := rfl
    have h2 : pyTrunc (((2 : Int) : ℚ) * feetPerMeter) = 6 := by
      rw [pyTrunc, feetPerMeter]
      norm_num
    rw [h1, h2]
    rfl
  · rw [feetPerMeter]
    norm_num [round_eq]

/-- **C7 (amended).** For every integer elevation `m` in meters, the stored
value is the decimal string of the truncation toward zero of `m * 3.28084`:
the floor for nonnegative `m`, the ceiling for negative `m` — Python `int()`
does not round to nearest.  (The truncation branches on the sign of the
product; the theorem re-expresses it by the sign of `m`, using that the
conversion factor is positive.) -/
theorem ms_elevation_feet_trunc (m : Int) :
    elevation_get_request_ms 200 true (some (msPayload m)) =
      .ok (toString
        (if 0 ≤ m then ⌊(m : ℚ) * feetPerMeter⌋ else ⌈(m : ℚ) * feetPerMeter⌉)) := by
  have hfpm : (0 : ℚ) < feetPerMeter := by
    rw [feetPerMeter]
    norm_num
  have h1 : elevation_get_request_ms 200 true (some (msPayload m)) =
      .ok (toString (pyTrunc ((m : ℚ) * feetPerMeter))) := rfl
  rw [h1]
  by_cases hm : 0 ≤ m
  · have hq : 0 ≤ (m : ℚ) * feetPerMeter := by
      apply mul_nonneg
      · exact_mod_cast hm
      · exact le_of_lt hfpm
    rw [pyTrunc, if_pos hq, if_pos hm]
  · have hmq : (m : ℚ) < 0 := by
      have hneg : m < 0 := by omega
      exact_mod_cast hneg
    have hq : ¬(0 : ℚ) ≤ (m : ℚ) * feetPerMeter := by
      exact not_le.mpr (mul_neg_of_neg_of_pos hmq hfpm)
    rw [pyTrunc, if_neg hq, if_neg hm]

/-- **C8.** A 200 response whose JSON body lacks the expected keys (here
the empty object) makes the elevation lookup raise `KeyError`: the `except`
clause catches only `ValueError`, so instead of storing the `"Error"`
sentinel the enrichment of the observation aborts. -/
theorem ms_elevation_missing_keys_raises :
    elevation_get_request_ms 200 true (some (.jobj [])) = .error .keyError := rfl

/-- Auxiliary: the fallback name of a missing place id starts with
`"Not found"`. -/
theorem notFound_startswith (pid : Nat) :
    pyStartswith ("Not found (" ++ toString pid ++ ")") "Not found" = true := by
  rw [pyStartswith]
  apply List.isPrefixOf_iff_prefix.mpr
  rw [String.data_append, String.data_append]
  have h1 : "Not found".data <+: "Not found (".data := by decide
  have h2 : "Not found (".data <+: "Not found (".data ++ (toString pid).data :=
    List.prefix_append _ _
  have h3 : "Not found (".data ++ (toString pid).data <+:
      ("Not found (".data ++ (toString pid).data) ++ ")".data :=
    List.prefix_append _ _
  exact (h1.trans h2).trans h3

/-- Auxiliary: the backfill pass fetches a missing id exactly once, from any
starting state of the `places_missing_info` set. -/
theorem backfill_count_aux (table : Nat → Option PlaceInfo) (pid : Nat)
    (h : table pid = none) :
    ∀ (ids missing : List Nat),
      (backfillFetches table ids missing).count pid =
        if pid ∈ missing then 0 else if pid ∈ ids then 1 else 0 := by
  intro ids
  induction ids with
  | nil =>
    intro missing
    by_cases hm : pid ∈ missing <;> simp [backfillFetches, hm]
  | cons q rest ih =>
    intro missing
    rw [backfillFetches]
    by_cases hq : pid = q
    · subst hq
      have hsw : pyStartswith (get_place_info table pid).name "Not found" = true := by
        rw [get_place_info, h]
        exact notFound_startswith pid
      by_cases hm : pid ∈ missing
      · have hc : missing.contains pid = true := by simpa using hm
        rw [hsw, hc]
        simp only [Bool.not_true, Bool.and_false, Bool.false_eq_true, if_false]
        rw [ih missing, if_pos hm, if_pos hm]
      · have hc : missing.contains pid = false := by
          simpa using hm
        rw [hsw, hc]
        simp only [Bool.not_false, Bool.and_true, if_true]
        rw [List.count_cons, ih (pid :: missing), if_pos (List.mem_cons_self pid missing)]
        simp [hm]
    · by_cases hcnd : (pyStartswith (get_place_info table q).name "Not found"
          && !(missing.contains q)) = true
      · rw [if_pos hcnd, List.count_cons, ih (q :: missing)]
        have hmq : (pid ∈ q :: missing) ↔ pid ∈ missing := by
          simp [List.mem_cons, hq]
        have hrq : (pid ∈ q :: rest) ↔ pid ∈ rest := by
          simp [List.mem_cons, hq]
        have hbq : (q == pid) = false :=
          beq_eq_false_iff_ne.mpr (fun hc => hq hc.symm)
        rw [hbq]
        by_cases hm : pid ∈ missing
        · simp [hmq, hm]
        · simp [hmq, hm, hrq]
      · rw [if_neg hcnd, ih missing]
        have hrq : (pid ∈ q :: rest) ↔ pid ∈ rest := by
          simp [List.mem_cons, hq]
        by_cases hm : pid ∈ missing
        · simp [hm]
        · simp [hm, hrq]

/-- **C9.** For a place id absent from the static `places_info` table,
`get_place_info` returns the placeholder record with name
`"Not found (<id>)"`, `bbox_area = 0` and `place_type = None`, and the
backfill pass over the run's collected ids marks (and fetches) the id
exactly once. -/
theorem get_place_info_missing (table : Nat → Option PlaceInfo) (pid : Nat)
    (ids : List Nat) (h : table pid = none) :
    get_place_info table pid =
      ⟨"Not found (" ++ toString pid ++ ")", 0, none⟩
    ∧ (backfillFetches table ids []).count pid = (if pid ∈ ids then 1 else 0) := by
  constructor
  · rw [get_place_info, h]
  · rw [backfill_count_aux table pid h ids []]
    simp

/-- **C9 witness.** A table with no entries, id 7, the id collected twice:
one backfill fetch. -/
theorem get_place_info_missing_witness :
    ((fun _ : Nat => (none : Option PlaceInfo)) 7 = none)
    ∧ (get_place_info (fun _ => none) 7 =
        ⟨"Not found (" ++ toString 7 ++ ")", 0, none⟩
      ∧ (backfillFetches (fun _ => none) [7, 7] []).count 7 =
          (if 7 ∈ [7, 7] then 1 else 0)) :=
  ⟨rfl, get_place_info_missing (fun _ => none) 7 [7, 7] rfl⟩

end Inat
